import Mathlib

/-!
Shallow embedding of the TrenchBroom embedded expression language (EL)
tokenizer and parser, translated from `ELParser.cpp`
(`TrenchBroom::IO::ELTokenizer` and `TrenchBroom::IO::ELParser`).

Modelling choices:
* C++ strings are `List Char`; `size_t` line/column counters are `Nat`
  (1-based, as in the source).
* `EL::NumberType` (a 64-bit float) is modelled as `ℚ`, which is exact on
  every numeral the development evaluates.
* C++ exceptions (`ParserException`) become `Except Err`; the structured
  `Err` payload keeps the data the exception message is formatted from.
* The source location that every `EL::ExpressionNode` carries is dropped
  from the AST (nothing here observes it); the locations carried by
  tokens and errors are kept.
* The recursive-descent parser is made total with an explicit fuel
  argument; the entry points hand the parser more fuel than any input of
  its length can consume, so fuel exhaustion is unreachable from them.
* The base-class helpers of `Tokenizer<...>` (`readDecimal`,
  `readInteger`, `discard`, `readQuotedString`) and the constants of
  `ELParser.h` (the `ELToken` class masks) are not part of the source
  excerpt; the definitions below that model them carry a comment saying
  what they were modelled from.
-/

namespace EL

/-- Token kinds, one per `ELToken` constant of the parser header. -/
inductive TokType where
  | Name | String | Number | Boolean | Null
  | OBracket | CBracket | OBrace | CBrace | OParen | CParen
  | Addition | Subtraction | Multiplication | Division | Modulus
  | Colon | Comma | Range
  | LogicalNegation | LogicalAnd | LogicalOr
  | Less | LessOrEqual | Equal | NotEqual | GreaterOrEqual | Greater
  | Case
  | BitwiseNegation | BitwiseAnd | BitwiseXOr | BitwiseOr
  | BitwiseShiftLeft | BitwiseShiftRight
  | DoubleOBrace | DoubleCBrace
  | Eof
deriving DecidableEq

/-- Lexical token: kind, matched text, and 1-based (line, column) of its
start, as built by `ELTokenizer::emitToken`. -/
structure Token where
  type : TokType
  data : List Char
  line : Nat
  col : Nat
deriving DecidableEq

/-- Structured payloads of the `ParserException`s thrown by the tokenizer
and the parser. `outOfFuel` is the artefact of the fuel encoding and is
unreachable from the entry points. -/
inductive Err where
  | unexpectedChar (line col : Nat) (c : Char)
  | unterminatedString (line col : Nat)
  | parseError (line col : Nat) (found : TokType) (expected : List TokType)
  | unhandledUnaryOp (line col : Nat) (t : TokType)
  | unhandledBinaryOp (line col : Nat) (t : TokType)
  | outOfFuel
deriving DecidableEq

/-- Tokenizer scan state: remaining input and current 1-based location. -/
structure TokState where
  chars : List Char
  line : Nat
  col : Nat
deriving DecidableEq

/-- Whitespace set of the tokenizer (`Whitespace()` = " \t\n\r"). -/
def isWhite (c : Char) : Bool :=
  c == ' ' || c == '\t' || c == '\n' || c == '\r'

/-- Delimiters ending a number scan: `NumberDelim()` = whitespace plus
"(){}[],:+-*/%". -/
def numberDelim : List Char :=
  [' ', '\t', '\n', '\r', '(', ')', '{', '}', '[', ']', ',', ':',
   '+', '-', '*', '/', '%']

/-- Delimiters ending an integer scan: `IntegerDelim()` = `NumberDelim()`
plus the dot. -/
def integerDelim : List Char := numberDelim ++ ['.']

/-- Advance the (line, column) location over one consumed character, as
`Tokenizer::advance` does: a newline starts the next 1-based line. -/
def advanceLoc (c : Char) (line col : Nat) : Nat × Nat :=
  if c = '\n' then (line + 1, 1) else (line, col + 1)

/-- Fold `advanceLoc` over a consumed chunk. -/
def advanceLocs (cs : List Char) (line col : Nat) : Nat × Nat :=
  match cs with
  | [] => (line, col)
  | c :: rest =>
    match advanceLoc c line col with
    | (l, k) => advanceLocs rest l k

/-- Scan forward to (but not past) the next `'\n'` or `'\r'`, as
`discardUntil("\n\r")` does after a `//` comment marker. -/
def skipLine (cs : List Char) (line col : Nat) : List Char × Nat × Nat :=
  match cs with
  | [] => ([], line, col)
  | c :: rest =>
    if c = '\n' ∨ c = '\r' then (c :: cs.tail, line, col)
    else skipLine rest line (col + 1)

/-- Whitespace-and-comment skipping loop at the head of
`ELTokenizer::emitToken`: discard whitespace, and on `//` discard to the
end of the line and keep going. Fueled; one unit of fuel per loop step
suffices for any input of that length. -/
def skipWs (fuel : Nat) (cs : List Char) (line col : Nat) :
    List Char × Nat × Nat :=
  match fuel, cs with
  | 0, cs => (cs, line, col)
  | _ + 1, [] => ([], line, col)
  | fuel + 1, c :: rest =>
    if c = ' ' ∨ c = '\t' ∨ c = '\r' then skipWs fuel rest line (col + 1)
    else if c = '\n' then skipWs fuel rest (line + 1) 1
    else if c = '/' ∧ rest.head? = some '/' then
      match skipLine rest line (col + 1) with
      | (rest', line', col') => skipWs fuel rest' line' col'
    else (c :: rest, line, col)

/-- Longest digit prefix and the remainder. -/
def spanDigits (cs : List Char) : List Char × List Char :=
  match cs with
  | [] => ([], [])
  | c :: rest =>
    if c.isDigit then
      match spanDigits rest with
      | (ds, r) => (c :: ds, r)
    else ([], c :: rest)

/-- Modelled from the spec: `Tokenizer::readDecimal`, the base-class
decimal scan, is not part of the source excerpt. Per the spec a decimal
scan is "attempted first (delimited by whitespace, structural
punctuation, or EOF)"; the spec further requires that "a decimal token
immediately followed by `.` that is *not* the start of a `..` range is a
lexical error", so a successful scan may also stop right before a dot:
digits, then an optional fractional part (the dot is not consumed when a
`..` range follows, so `1..3` lexes as number, range, number), ending at
end of input, a delimiter, or a dot. Exponent forms are out of scope (no
spec sentence and no claim mentions them). -/
def readDecimal (delims : List Char) (cs : List Char) :
    Option (List Char × List Char) :=
  match cs with
  | [] => none
  | c :: _ =>
    if c.isDigit then
      match spanDigits cs with
      | (ds, r₁) =>
        match r₁ with
        | [] => some (ds, [])
        | '.' :: r₂ =>
          if r₂.head? = some '.' then some (ds, r₁)
          else
            match spanDigits r₂ with
            | (fs, r₃) =>
              match r₃ with
              | [] => some (ds ++ '.' :: fs, [])
              | d :: _ =>
                if d ∈ delims ∨ d = '.' then some (ds ++ '.' :: fs, r₃)
                else none
        | d :: _ => if d ∈ delims then some (ds, r₁) else none
    else none

/-- Modelled from the spec: `Tokenizer::readInteger` is not part of the
source excerpt; "if it (the decimal scan) fails, an integer scan is
attempted" — digits up to end of input or a delimiter of the given set. -/
def readInteger (delims : List Char) (cs : List Char) :
    Option (List Char × List Char) :=
  match cs with
  | [] => none
  | c :: _ =>
    if c.isDigit then
      match spanDigits cs with
      | (ds, r) =>
        match r with
        | [] => some (ds, [])
        | d :: _ => if d ∈ delims then some (ds, r) else none
    else none

/-- Modelled from the spec: `Tokenizer::discard(str)` is not part of the
source excerpt; keywords are "recognized by exact match", so the scan
succeeds exactly when the pattern is a prefix of the input, consuming it. -/
def discard (pat cs : List Char) : Option (List Char) :=
  match pat with
  | [] => some cs
  | p :: ps =>
    match cs with
    | [] => none
    | c :: rest => if c = p then discard ps rest else none

/-- Modelled from the spec: `Tokenizer::readQuotedString` is not part of
the source excerpt. String literals use `\` as the escape introducer and
"the raw escaped text is preserved in the token", so the scan copies
characters (keeping every escape pair verbatim) up to the first
unescaped closing delimiter, failing on an unterminated literal. Returns
the raw text, the remaining input past the delimiter, and the location
past the delimiter. -/
def readQuotedString (delim : Char) (cs : List Char) (line col : Nat) :
    Option (List Char × List Char × Nat × Nat) :=
  match cs with
  | [] => none
  | c :: rest =>
    if c = delim then some ([], rest, line, col + 1)
    else if c = '\\' then
      match rest with
      | [] => none
      | c₂ :: rest₂ =>
        match advanceLoc c₂ line (col + 1) with
        | (l₁, k₁) =>
          match readQuotedString delim rest₂ l₁ k₁ with
          | some (raw, r, l₂, k₂) => some ('\\' :: c₂ :: raw, r, l₂, k₂)
          | none => none
    else
      match advanceLoc c line col with
      | (l₁, k₁) =>
        match readQuotedString delim rest l₁ k₁ with
        | some (raw, r, l₂, k₂) => some (c :: raw, r, l₂, k₂)
        | none => none

/-- Modelled from the spec: `kdl::str_unescape(str, "\\\"")` is not part
of the source excerpt; unescaping turns `\"` into `"` (and `\\` into
`\`) "when the literal is turned into a Value". A backslash before any
other character is kept. -/
def strUnescape (cs : List Char) : List Char :=
  match cs with
  | [] => []
  | '\\' :: [] => ['\\']
  | '\\' :: c :: rest =>
    if c = '"' ∨ c = '\\' then c :: strUnescape rest
    else '\\' :: c :: strUnescape rest
  | c :: rest => c :: strUnescape rest

/-- Numeric value of a digit character. -/
def digitVal (c : Char) : Nat := c.toNat - 48

/-- Value of a digit string, read in base 10. -/
def digitsVal (ds : List Char) : Nat :=
  ds.foldl (fun acc c => 10 * acc + digitVal c) 0

/-- Numeric value of a `Number` token, as `Token::toFloat<NumberType>()`
produces it: integer part, and fractional digits after an optional dot;
`d₁…dₘ.f₁…fₖ` denotes `d₁…dₘf₁…fₖ / 10^k`. Built with the kernel
`mkRat` so that concrete tokens evaluate definitionally. -/
def toNumber (cs : List Char) : ℚ :=
  match spanDigits cs with
  | (ds, r) =>
    match r with
    | '.' :: fs => mkRat (Int.ofNat (digitsVal (ds ++ fs))) (Nat.pow 10 fs.length)
    | _ => mkRat (Int.ofNat (digitsVal ds)) 1

/-- Identifier tail characters: letters, digits, underscore. -/
def isIdentChar (c : Char) : Bool := c.isAlpha || c.isDigit || c == '_'

/-- Default branch of `ELTokenizer::emitToken` after the `..`-range and
`==` checks: decimal scan, integer scan, exact-match keywords `true`,
`false`, `null`, then identifiers, then the unexpected-character error.
`c` is the first remaining character, `rest` what follows it. -/
def numericScan (c : Char) (rest : List Char) (line col : Nat) :
    Except Err (Token × TokState) :=
  match readDecimal numberDelim (c :: rest) with
  | some (ds, r) =>
    if r.head? = some '.' ∧ r.tail.head? ≠ some '.' then
      .error (.unexpectedChar line col c)
    else .ok (⟨.Number, ds, line, col⟩, ⟨r, line, col + ds.length⟩)
  | none =>
    match readInteger integerDelim (c :: rest) with
    | some (ds, r) => .ok (⟨.Number, ds, line, col⟩, ⟨r, line, col + ds.length⟩)
    | none =>
      match discard ['t', 'r', 'u', 'e'] (c :: rest) with
      | some r => .ok (⟨.Boolean, ['t', 'r', 'u', 'e'], line, col⟩, ⟨r, line, col + 4⟩)
      | none =>
        match discard ['f', 'a', 'l', 's', 'e'] (c :: rest) with
        | some r => .ok (⟨.Boolean, ['f', 'a', 'l', 's', 'e'], line, col⟩, ⟨r, line, col + 5⟩)
        | none =>
          match discard ['n', 'u', 'l', 'l'] (c :: rest) with
          | some r => .ok (⟨.Null, ['n', 'u', 'l', 'l'], line, col⟩, ⟨r, line, col + 4⟩)
          | none =>
            if c.isAlpha ∨ c = '_' then
              match (c :: rest).takeWhile isIdentChar,
                    (c :: rest).dropWhile isIdentChar with
              | id, r =>
                .ok (⟨.Name, id, line, col⟩, ⟨r, line, col + id.length⟩)
            else .error (.unexpectedChar line col c)

/-- Build a one-character operator token. -/
def tok1 (t : TokType) (c : Char) (rest : List Char) (line col : Nat) :
    Except Err (Token × TokState) :=
  .ok (⟨t, [c], line, col⟩, ⟨rest, line, col + 1⟩)

/-- Build a two-character operator token. -/
def tok2 (t : TokType) (c₁ c₂ : Char) (rest : List Char) (line col : Nat) :
    Except Err (Token × TokState) :=
  .ok (⟨t, [c₁, c₂], line, col⟩, ⟨rest, line, col + 2⟩)

/-- Translation of `ELTokenizer::emitToken`: skip whitespace and `//`
comments, then dispatch on the first character exactly as the C++ switch
does. Note the `=` case: the source guards it with `curChar() == '='`,
which at that point is trivially true, so any `=` (even one not followed
by a second `=`) yields an `Equal` token spanning two characters. -/
def nextToken (s : TokState) : Except Err (Token × TokState) :=
  match skipWs (s.chars.length + 1) s.chars s.line s.col with
  | ([], line, col) => .ok (⟨.Eof, [], line, col⟩, ⟨[], line, col⟩)
  | (c :: rest, line, col) =>
    if c = '[' then tok1 .OBracket c rest line col
    else if c = ']' then tok1 .CBracket c rest line col
    else if c = '{' then
      match rest with
      | '{' :: r₂ => tok2 .DoubleOBrace c '{' r₂ line col
      | _ => tok1 .OBrace c rest line col
    else if c = '}' then
      match rest with
      | '}' :: r₂ => tok2 .DoubleCBrace c '}' r₂ line col
      | _ => tok1 .CBrace c rest line col
    else if c = '(' then tok1 .OParen c rest line col
    else if c = ')' then tok1 .CParen c rest line col
    else if c = '+' then tok1 .Addition c rest line col
    else if c = '-' then
      match rest with
      | '>' :: r₂ => tok2 .Case c '>' r₂ line col
      | _ => tok1 .Subtraction c rest line col
    else if c = '*' then tok1 .Multiplication c rest line col
    else if c = '/' then tok1 .Division c rest line col
    else if c = '%' then tok1 .Modulus c rest line col
    else if c = '~' then tok1 .BitwiseNegation c rest line col
    else if c = '&' then
      match rest with
      | '&' :: r₂ => tok2 .LogicalAnd c '&' r₂ line col
      | _ => tok1 .BitwiseAnd c rest line col
    else if c = '|' then
      match rest with
      | '|' :: r₂ => tok2 .LogicalOr c '|' r₂ line col
      | _ => tok1 .BitwiseOr c rest line col
    else if c = '^' then tok1 .BitwiseXOr c rest line col
    else if c = '!' then
      match rest with
      | '=' :: r₂ => tok2 .NotEqual c '=' r₂ line col
      | _ => tok1 .LogicalNegation c rest line col
    else if c = '<' then
      match rest with
      | '=' :: r₂ => tok2 .LessOrEqual c '=' r₂ line col
      | '<' :: r₂ => tok2 .BitwiseShiftLeft c '<' r₂ line col
      | _ => tok1 .Less c rest line col
    else if c = '>' then
      match rest with
      | '=' :: r₂ => tok2 .GreaterOrEqual c '=' r₂ line col
      | '>' :: r₂ => tok2 .BitwiseShiftRight c '>' r₂ line col
      | _ => tok1 .Greater c rest line col
    else if c = ':' then tok1 .Colon c rest line col
    else if c = ',' then tok1 .Comma c rest line col
    else if c = '\'' ∨ c = '"' then
      match readQuotedString c rest line (col + 1) with
      | none => .error (.unterminatedString line col)
      | some (raw, r, line', col') =>
        .ok (⟨.String, raw, line, col⟩, ⟨r, line', col'⟩)
    else if c = '.' ∧ rest.head? = some '.' then
      tok2 .Range c '.' rest.tail line col
    else if c = '=' then
      .ok (⟨.Equal, c :: rest.take 1, line, col⟩, ⟨rest.drop 1, line, col + 2⟩)
    else numericScan c rest line col

/-- Translation of `Tokenizer::peekToken`: produce the next token without
consuming it. -/
def peekToken (s : TokState) : Except Err Token :=
  match nextToken s with
  | .ok (t, _) => .ok t
  | .error e => .error e

/-- Runtime values a literal can denote (`EL::Value`), restricted to the
scalar kinds the parser itself constructs. -/
inductive Value where
  | Null
  | Boolean (b : Bool)
  | Number (n : ℚ)
  | String (s : List Char)
deriving DecidableEq

/-- Unary operators (`EL::UnaryOperation`). -/
inductive UnaryOperation where
  | Plus | Minus | LogicalNegation | BitwiseNegation
  | Group | LeftBoundedRange | RightBoundedRange
deriving DecidableEq

/-- Binary operators (`EL::BinaryOperation`). -/
inductive BinaryOperation where
  | Addition | Subtraction | Multiplication | Division | Modulus
  | LogicalAnd | LogicalOr
  | BitwiseAnd | BitwiseXOr | BitwiseOr | BitwiseShiftLeft | BitwiseShiftRight
  | Less | LessOrEqual | Greater | GreaterOrEqual | Equal | NotEqual
  | BoundedRange | Case
deriving DecidableEq

/-- Expression tree (`EL::ExpressionNode` and the expression variants of
`EL/Expression.h`). Map literals use the key-sorted association list that
models `std::map<std::string, ExpressionNode>`. Source locations are not
carried (see the header comment). -/
inductive Expr where
  | literalExpression (v : Value)
  | variableExpression (name : List Char)
  | unaryExpression (op : UnaryOperation) (operand : Expr)
  | binaryExpression (op : BinaryOperation) (lhs rhs : Expr)
  | arrayExpression (elements : List Expr)
  | mapExpression (elements : List (List Char × Expr))
  | subscriptExpression (lhs rhs : Expr)
  | switchExpression (cases : List Expr)

/-- Lexicographic order on strings, as `std::string`'s `operator<` used by
`std::map` keys. -/
def strLt (a b : List Char) : Bool :=
  match a, b with
  | [], [] => false
  | [], _ :: _ => true
  | _ :: _, [] => false
  | x :: xs, y :: ys => if x < y then true else if y < x then false else strLt xs ys

/-- Translation of `std::map::emplace` on the key-sorted association
list: insert at the sorted position if the key is absent, and do nothing
at all when the key is already present (emplace never overwrites). -/
def mapEmplace (m : List (List Char × Expr)) (k : List Char) (v : Expr) :
    List (List Char × Expr) :=
  match m with
  | [] => [(k, v)]
  | (k', v') :: rest =>
    if strLt k k' then (k, v) :: (k', v') :: rest
    else if k = k' then (k', v') :: rest
    else (k', v') :: mapEmplace rest k v

/-- Lookup in the association list modelling `std::map`. -/
def mapLookup (m : List (List Char × Expr)) (k : List Char) : Option Expr :=
  match m with
  | [] => none
  | (k', v') :: rest => if k = k' then some v' else mapLookup rest k

/-- Modelled from the spec: the `ELToken::Literal` class mask of the
parser header (not in the source excerpt) — "literal := string | number |
boolean | null". -/
def literalTokens : List TokType := [.String, .Number, .Boolean, .Null]

/-- Modelled from the spec: the `ELToken::UnaryOperator` class mask —
the four tokens `parseUnaryOperator` maps ("unaryOp" of the grammar). -/
def unaryOperatorTokens : List TokType :=
  [.Addition, .Subtraction, .LogicalNegation, .BitwiseNegation]

/-- Modelled from the spec: the `ELToken::SimpleTerm` class mask —
"simpleTerm := unaryOp simpleTermOrSwitch | '(' term ')' | Name |
literal", where a literal may also open an array (`[`) or a map (`{`). -/
def simpleTermTokens : List TokType :=
  [.Name, .String, .Number, .Boolean, .Null, .OParen, .OBracket, .OBrace,
   .Addition, .Subtraction, .LogicalNegation, .BitwiseNegation]

/-- Modelled from the spec: the `ELToken::CompoundTerm` class mask — the
binary operators of the one-level "compoundTail" chain. `Range` and the
structural tokens are not in it: the spec handles `..` only inside array
literals and subscript argument lists, which is consistent with the
dedicated `Range` branches of `parseExpressionOrBoundedRange` and
`parseExpressionOrAnyRange` (they would be dead code otherwise). -/
def compoundTermTokens : List TokType :=
  [.Addition, .Subtraction, .Multiplication, .Division, .Modulus,
   .LogicalAnd, .LogicalOr, .BitwiseAnd, .BitwiseXOr, .BitwiseOr,
   .BitwiseShiftLeft, .BitwiseShiftRight,
   .Less, .LessOrEqual, .Greater, .GreaterOrEqual, .Equal, .NotEqual, .Case]

/-- Translation of `Token::hasType`: membership of the token's kind in a
class mask. -/
abbrev hasType (t : Token) (mask : List TokType) : Prop := t.type ∈ mask

/-- Translation of `Parser::expect`: return the token if its kind is in
the mask, otherwise raise a `ParserException` naming the offending token
and the acceptable kinds. -/
def expect (mask : List TokType) (t : Token) : Except Err Token :=
  if t.type ∈ mask then .ok t
  else .error (.parseError t.line t.col t.type mask)

/-- Translation of the `TokenMap` of `ELParser::parseCompoundTerm`
(including its `Range` entry, unreachable under the `CompoundTerm`
guard). -/
def tokenToBinaryOp (t : TokType) : Option BinaryOperation :=
  match t with
  | .Addition => some .Addition
  | .Subtraction => some .Subtraction
  | .Multiplication => some .Multiplication
  | .Division => some .Division
  | .Modulus => some .Modulus
  | .LogicalAnd => some .LogicalAnd
  | .LogicalOr => some .LogicalOr
  | .BitwiseAnd => some .BitwiseAnd
  | .BitwiseXOr => some .BitwiseXOr
  | .BitwiseOr => some .BitwiseOr
  | .BitwiseShiftLeft => some .BitwiseShiftLeft
  | .BitwiseShiftRight => some .BitwiseShiftRight
  | .Less => some .Less
  | .LessOrEqual => some .LessOrEqual
  | .Greater => some .Greater
  | .GreaterOrEqual => some .GreaterOrEqual
  | .Equal => some .Equal
  | .NotEqual => some .NotEqual
  | .Range => some .BoundedRange
  | .Case => some .Case
  | _ => none

/-- Translation of the `TokenMap` of `ELParser::parseUnaryOperator`. -/
def tokenToUnaryOp (t : TokType) : Option UnaryOperation :=
  match t with
  | .Addition => some .Plus
  | .Subtraction => some .Minus
  | .LogicalNegation => some .LogicalNegation
  | .BitwiseNegation => some .BitwiseNegation
  | _ => none

/-- Translation of `ELParser::parseVariable`. -/
def parseVariable (s : TokState) : Except Err (Expr × TokState) :=
  match nextToken s with
  | .error e => .error e
  | .ok (t, s₁) =>
    match expect [.Name] t with
    | .error e => .error e
    | .ok _ => .ok (.variableExpression t.data, s₁)

mutual

/-- Translation of `ELParser::parseExpression`. -/
def parseExpression : Nat → TokState → Except Err (Expr × TokState)
  | 0, _ => .error .outOfFuel
  | fuel + 1, s =>
    match peekToken s with
    | .error e => .error e
    | .ok t =>
      if hasType t [.OParen] then parseGroupedTerm fuel s
      else parseTerm fuel s
termination_by structural fuel _ => fuel

/-- Translation of `ELParser::parseGroupedTerm`. -/
def parseGroupedTerm : Nat → TokState → Except Err (Expr × TokState)
  | 0, _ => .error .outOfFuel
  | fuel + 1, s =>
    match nextToken s with
    | .error e => .error e
    | .ok (t, s₁) =>
      match expect [.OParen] t with
      | .error e => .error e
      | .ok _ =>
        match parseTerm fuel s₁ with
        | .error e => .error e
        | .ok (e₁, s₂) =>
          match nextToken s₂ with
          | .error e => .error e
          | .ok (t₂, s₃) =>
            match expect [.CParen] t₂ with
            | .error e => .error e
            | .ok _ =>
              let lhs := Expr.unaryExpression .Group e₁
              match peekToken s₃ with
              | .error e => .error e
              | .ok t₃ =>
                if hasType t₃ compoundTermTokens then
                  parseCompoundTerm fuel lhs s₃
                else .ok (lhs, s₃)
termination_by structural fuel _ => fuel

/-- Translation of `ELParser::parseTerm`. -/
def parseTerm : Nat → TokState → Except Err (Expr × TokState)
  | 0, _ => .error .outOfFuel
  | fuel + 1, s =>
    match peekToken s with
    | .error e => .error e
    | .ok t =>
      match expect (simpleTermTokens ++ [.DoubleOBrace]) t with
      | .error e => .error e
      | .ok _ =>
        match parseSimpleTermOrSwitch fuel s with
        | .error e => .error e
        | .ok (lhs, s₁) =>
          match peekToken s₁ with
          | .error e => .error e
          | .ok t₁ =>
            if hasType t₁ compoundTermTokens then parseCompoundTerm fuel lhs s₁
            else .ok (lhs, s₁)
termination_by structural fuel _ => fuel

/-- Translation of `ELParser::parseSimpleTermOrSwitch`. -/
def parseSimpleTermOrSwitch : Nat → TokState → Except Err (Expr × TokState)
  | 0, _ => .error .outOfFuel
  | fuel + 1, s =>
    match peekToken s with
    | .error e => .error e
    | .ok t =>
      match expect (simpleTermTokens ++ [.DoubleOBrace]) t with
      | .error e => .error e
      | .ok _ =>
        if hasType t simpleTermTokens then parseSimpleTermOrSubscript fuel s
        else parseSwitch fuel s
termination_by structural fuel _ => fuel

/-- Translation of `ELParser::parseSimpleTermOrSubscript`. -/
def parseSimpleTermOrSubscript : Nat → TokState → Except Err (Expr × TokState)
  | 0, _ => .error .outOfFuel
  | fuel + 1, s =>
    match parseSimpleTerm fuel s with
    | .error e => .error e
    | .ok (term, s₁) => parseSubscriptLoop fuel term s₁
termination_by structural fuel _ => fuel

/-- The `while peekToken().hasType(OBracket)` loop of
`ELParser::parseSimpleTermOrSubscript`. -/
def parseSubscriptLoop : Nat → Expr → TokState → Except Err (Expr × TokState)
  | 0, _, _ => .error .outOfFuel
  | fuel + 1, term, s =>
    match peekToken s with
    | .error e => .error e
    | .ok t =>
      if hasType t [.OBracket] then
        match parseSubscript fuel term s with
        | .error e => .error e
        | .ok (term', s₁) => parseSubscriptLoop fuel term' s₁
      else .ok (term, s)
termination_by structural fuel _ _ => fuel

/-- Translation of `ELParser::parseSimpleTerm`. -/
def parseSimpleTerm : Nat → TokState → Except Err (Expr × TokState)
  | 0, _ => .error .outOfFuel
  | fuel + 1, s =>
    match peekToken s with
    | .error e => .error e
    | .ok t =>
      match expect simpleTermTokens t with
      | .error e => .error e
      | .ok _ =>
        if hasType t unaryOperatorTokens then parseUnaryOperator fuel s
        else if hasType t [.OParen] then parseGroupedTerm fuel s
        else if hasType t [.Name] then parseVariable s
        else parseLiteral fuel s
termination_by structural fuel _ => fuel

/-- Translation of `ELParser::parseSubscript`: a `[` then either an empty
argument list closed immediately by `]` (yielding an empty `Array`
index) or a comma-separated list; a single argument is the index itself,
several are wrapped in an `Array` node. -/
def parseSubscript : Nat → Expr → TokState → Except Err (Expr × TokState)
  | 0, _, _ => .error .outOfFuel
  | fuel + 1, lhs, s =>
    match nextToken s with
    | .error e => .error e
    | .ok (t, s₁) =>
      match expect [.OBracket] t with
      | .error e => .error e
      | .ok _ =>
        match peekToken s₁ with
        | .error e => .error e
        | .ok t₁ =>
          if hasType t₁ [.CBracket] then
            match nextToken s₁ with
            | .error e => .error e
            | .ok (_, s₂) =>
              .ok (.subscriptExpression lhs (.arrayExpression []), s₂)
          else
            match parseSubscriptArgs fuel s₁ with
            | .error e => .error e
            | .ok (elements, s₂) =>
              let rhs := match elements with
                | [e] => e
                | _ => Expr.arrayExpression elements
              .ok (.subscriptExpression lhs rhs, s₂)
termination_by structural fuel _ _ => fuel

/-- The do/while argument loop of `ELParser::parseSubscript`: elements
separated by commas, terminated by `]`. -/
def parseSubscriptArgs : Nat → TokState → Except Err (List Expr × TokState)
  | 0, _ => .error .outOfFuel
  | fuel + 1, s =>
    match parseExpressionOrAnyRange fuel s with
    | .error e => .error e
    | .ok (e₁, s₁) =>
      match nextToken s₁ with
      | .error e => .error e
      | .ok (t, s₂) =>
        match expect [.Comma, .CBracket] t with
        | .error e => .error e
        | .ok _ =>
          if hasType t [.Comma] then
            match parseSubscriptArgs fuel s₂ with
            | .error e => .error e
            | .ok (es, s₃) => .ok (e₁ :: es, s₃)
          else .ok ([e₁], s₂)
termination_by structural fuel _ => fuel

/-- Translation of `ELParser::parseLiteral`. String token data is
unescaped here (and only here), as the source does with
`kdl::str_unescape(token.data(), "\\\"")`. -/
def parseLiteral : Nat → TokState → Except Err (Expr × TokState)
  | 0, _ => .error .outOfFuel
  | fuel + 1, s =>
    match peekToken s with
    | .error e => .error e
    | .ok t =>
      match expect (literalTokens ++ [.OBracket, .OBrace]) t with
      | .error e => .error e
      | .ok _ =>
        if hasType t [.String] then
          match nextToken s with
          | .error e => .error e
          | .ok (_, s₁) =>
            .ok (.literalExpression (.String (strUnescape t.data)), s₁)
        else if hasType t [.Number] then
          match nextToken s with
          | .error e => .error e
          | .ok (_, s₁) =>
            .ok (.literalExpression (.Number (toNumber t.data)), s₁)
        else if hasType t [.Boolean] then
          match nextToken s with
          | .error e => .error e
          | .ok (_, s₁) =>
            .ok (.literalExpression (.Boolean (t.data = ['t', 'r', 'u', 'e'])), s₁)
        else if hasType t [.Null] then
          match nextToken s with
          | .error e => .error e
          | .ok (_, s₁) => .ok (.literalExpression .Null, s₁)
        else if hasType t [.OBracket] then parseArray fuel s
        else parseMap fuel s
termination_by structural fuel _ => fuel

/-- Translation of `ELParser::parseArray`. -/
def parseArray : Nat → TokState → Except Err (Expr × TokState)
  | 0, _ => .error .outOfFuel
  | fuel + 1, s =>
    match nextToken s with
    | .error e => .error e
    | .ok (t, s₁) =>
      match expect [.OBracket] t with
      | .error e => .error e
      | .ok _ =>
        match peekToken s₁ with
        | .error e => .error e
        | .ok t₁ =>
          if hasType t₁ [.CBracket] then
            match nextToken s₁ with
            | .error e => .error e
            | .ok (_, s₂) => .ok (.arrayExpression [], s₂)
          else
            match parseArrayElems fuel s₁ with
            | .error e => .error e
            | .ok (elements, s₂) => .ok (.arrayExpression elements, s₂)
termination_by structural fuel _ => fuel

/-- The do/while element loop of `ELParser::parseArray`. -/
def parseArrayElems : Nat → TokState → Except Err (List Expr × TokState)
  | 0, _ => .error .outOfFuel
  | fuel + 1, s =>
    match parseExpressionOrBoundedRange fuel s with
    | .error e => .error e
    | .ok (e₁, s₁) =>
      match nextToken s₁ with
      | .error e => .error e
      | .ok (t, s₂) =>
        match expect [.Comma, .CBracket] t with
        | .error e => .error e
        | .ok _ =>
          if hasType t [.Comma] then
            match parseArrayElems fuel s₂ with
            | .error e => .error e
            | .ok (es, s₃) => .ok (e₁ :: es, s₃)
          else .ok ([e₁], s₂)
termination_by structural fuel _ => fuel

/-- Translation of `ELParser::parseExpressionOrBoundedRange`. -/
def parseExpressionOrBoundedRange : Nat → TokState → Except Err (Expr × TokState)
  | 0, _ => .error .outOfFuel
  | fuel + 1, s =>
    match parseExpression fuel s with
    | .error e => .error e
    | .ok (e₁, s₁) =>
      match peekToken s₁ with
      | .error e => .error e
      | .ok t =>
        if hasType t [.Range] then
          match nextToken s₁ with
          | .error e => .error e
          | .ok (_, s₂) =>
            match parseExpression fuel s₂ with
            | .error e => .error e
            | .ok (e₂, s₃) =>
              .ok (.binaryExpression .BoundedRange e₁ e₂, s₃)
        else .ok (e₁, s₁)
termination_by structural fuel _ => fuel

/-- Translation of `ELParser::parseExpressionOrAnyRange`: a leading `..`
yields a right-bounded range of the following expression; otherwise an
expression followed by `..` yields a bounded range when a simple term
follows the range token and a left-bounded range when one does not. -/
def parseExpressionOrAnyRange : Nat → TokState → Except Err (Expr × TokState)
  | 0, _ => .error .outOfFuel
  | fuel + 1, s =>
    match peekToken s with
    | .error e => .error e
    | .ok t =>
      if hasType t [.Range] then
        match nextToken s with
        | .error e => .error e
        | .ok (_, s₁) =>
          match parseExpression fuel s₁ with
          | .error e => .error e
          | .ok (e₁, s₂) =>
            .ok (.unaryExpression .RightBoundedRange e₁, s₂)
      else
        match parseExpression fuel s with
        | .error e => .error e
        | .ok (e₁, s₁) =>
          match peekToken s₁ with
          | .error e => .error e
          | .ok t₁ =>
            if hasType t₁ [.Range] then
              match nextToken s₁ with
              | .error e => .error e
              | .ok (_, s₂) =>
                match peekToken s₂ with
                | .error e => .error e
                | .ok t₂ =>
                  if hasType t₂ simpleTermTokens then
                    match parseExpression fuel s₂ with
                    | .error e => .error e
                    | .ok (e₂, s₃) =>
                      .ok (.binaryExpression .BoundedRange e₁ e₂, s₃)
                  else .ok (.unaryExpression .LeftBoundedRange e₁, s₂)
            else .ok (e₁, s₁)
termination_by structural fuel _ => fuel

/-- Translation of `ELParser::parseMap`. -/
def parseMap : Nat → TokState → Except Err (Expr × TokState)
  | 0, _ => .error .outOfFuel
  | fuel + 1, s =>
    match nextToken s with
    | .error e => .error e
    | .ok (t, s₁) =>
      match expect [.OBrace] t with
      | .error e => .error e
      | .ok _ =>
        match peekToken s₁ with
        | .error e => .error e
        | .ok t₁ =>
          if hasType t₁ [.CBrace] then
            match nextToken s₁ with
            | .error e => .error e
            | .ok (_, s₂) => .ok (.mapExpression [], s₂)
          else
            match parseMapEntries fuel [] s₁ with
            | .error e => .error e
            | .ok (elements, s₂) => .ok (.mapExpression elements, s₂)
termination_by structural fuel _ => fuel

/-- The do/while entry loop of `ELParser::parseMap`, accumulating into
the `std::map` via `mapEmplace`. -/
def parseMapEntries : Nat → List (List Char × Expr) → TokState →
    Except Err (List (List Char × Expr) × TokState)
  | 0, _, _ => .error .outOfFuel
  | fuel + 1, acc, s =>
    match nextToken s with
    | .error e => .error e
    | .ok (t, s₁) =>
      match expect [.String, .Name] t with
      | .error e => .error e
      | .ok _ =>
        match nextToken s₁ with
        | .error e => .error e
        | .ok (t₂, s₂) =>
          match expect [.Colon] t₂ with
          | .error e => .error e
          | .ok _ =>
            match parseExpression fuel s₂ with
            | .error e => .error e
            | .ok (v, s₃) =>
              let acc' := mapEmplace acc t.data v
              match nextToken s₃ with
              | .error e => .error e
              | .ok (t₃, s₄) =>
                match expect [.Comma, .CBrace] t₃ with
                | .error e => .error e
                | .ok _ =>
                  if hasType t₃ [.Comma] then parseMapEntries fuel acc' s₄
                  else .ok (acc', s₄)
termination_by structural fuel _ _ => fuel

/-- Translation of `ELParser::parseUnaryOperator`. -/
def parseUnaryOperator : Nat → TokState → Except Err (Expr × TokState)
  | 0, _ => .error .outOfFuel
  | fuel + 1, s =>
    match nextToken s with
    | .error e => .error e
    | .ok (t, s₁) =>
      match expect unaryOperatorTokens t with
      | .error e => .error e
      | .ok _ =>
        match tokenToUnaryOp t.type with
        | some op =>
          match parseSimpleTermOrSwitch fuel s₁ with
          | .error e => .error e
          | .ok (e₁, s₂) => .ok (.unaryExpression op e₁, s₂)
        | none => .error (.unhandledUnaryOp t.line t.col t.type)
termination_by structural fuel _ => fuel

/-- Translation of `ELParser::parseSwitch`. -/
def parseSwitch : Nat → TokState → Except Err (Expr × TokState)
  | 0, _ => .error .outOfFuel
  | fuel + 1, s =>
    match nextToken s with
    | .error e => .error e
    | .ok (t, s₁) =>
      match expect [.DoubleOBrace] t with
      | .error e => .error e
      | .ok _ =>
        match peekToken s₁ with
        | .error e => .error e
        | .ok t₁ =>
          match expect (simpleTermTokens ++ [.DoubleCBrace]) t₁ with
          | .error e => .error e
          | .ok _ =>
            if hasType t₁ simpleTermTokens then
              match parseSwitchCases fuel s₁ with
              | .error e => .error e
              | .ok (cases, s₂) => .ok (.switchExpression cases, s₂)
            else
              match nextToken s₁ with
              | .error e => .error e
              | .ok (_, s₂) => .ok (.switchExpression [], s₂)
termination_by structural fuel _ => fuel

/-- The do/while branch loop of `ELParser::parseSwitch`. -/
def parseSwitchCases : Nat → TokState → Except Err (List Expr × TokState)
  | 0, _ => .error .outOfFuel
  | fuel + 1, s =>
    match parseExpression fuel s with
    | .error e => .error e
    | .ok (e₁, s₁) =>
      match nextToken s₁ with
      | .error e => .error e
      | .ok (t, s₂) =>
        match expect [.Comma, .DoubleCBrace] t with
        | .error e => .error e
        | .ok _ =>
          if hasType t [.Comma] then
            match parseSwitchCases fuel s₂ with
            | .error e => .error e
            | .ok (es, s₃) => .ok (e₁ :: es, s₃)
          else .ok ([e₁], s₂)
termination_by structural fuel _ => fuel

/-- Translation of `ELParser::parseCompoundTerm`: the flat left-to-right
binary-operator chain. While the next token is a compound-term operator,
consume it, parse a simple term or switch as the right operand, and fold
it onto the accumulated left-hand side. -/
def parseCompoundTerm : Nat → Expr → TokState → Except Err (Expr × TokState)
  | 0, _, _ => .error .outOfFuel
  | fuel + 1, lhs, s =>
    match peekToken s with
    | .error e => .error e
    | .ok t =>
      if hasType t compoundTermTokens then
        match nextToken s with
        | .error e => .error e
        | .ok (tk, s₁) =>
          match expect compoundTermTokens tk with
          | .error e => .error e
          | .ok _ =>
            match tokenToBinaryOp tk.type with
            | some op =>
              match parseSimpleTermOrSwitch fuel s₁ with
              | .error e => .error e
              | .ok (rhs, s₂) =>
                parseCompoundTerm fuel (.binaryExpression op lhs rhs) s₂
            | none => .error (.unhandledBinaryOp tk.line tk.col tk.type)
      else .ok (lhs, s)
termination_by structural fuel _ _ => fuel

end

/-- Parse modes (`ELParser::Mode`). -/
inductive Mode where
  | Strict
  | Lenient
deriving DecidableEq

/-- Fuel handed to the parser by the entry points: comfortably more than
one unit per character across every level of the grammar. -/
def parseFuel (str : String) : Nat := 16 * str.data.length + 16

/-- Initial tokenizer state over an input string (1-based location). -/
def initState (str : String) : TokState := ⟨str.data, 1, 1⟩

/-- Translation of `ELParser::parse`: parse one expression; in `Strict`
mode the next token must then be end-of-input, in `Lenient` mode the
rest of the input is ignored. -/
def parse (mode : Mode) (str : String) : Except Err Expr :=
  match parseExpression (parseFuel str) (initState str) with
  | .error e => .error e
  | .ok (result, s₁) =>
    match mode with
    | .Strict =>
      match peekToken s₁ with
      | .error e => .error e
      | .ok t =>
        match expect [.Eof] t with
        | .error e => .error e
        | .ok _ => .ok result
    | .Lenient => .ok result

/-- Translation of `ELParser::parseStrict`. -/
def parseStrict (str : String) : Except Err Expr := parse .Strict str

/-- Translation of `ELParser::parseLenient`. -/
def parseLenient (str : String) : Except Err Expr := parse .Lenient str

/-- Modelled from the spec: the evaluator (spec section 4.3) is not part
of the source excerpt; this is its arithmetic fragment on `Number`
values — "Binary arithmetic (+, -, *, /, %) → both operands coerced to
Number", "Unary Group → evaluate operand unchanged", division by zero
fails — restricted to the operators a numeric literal chain can denote.
Everything else evaluates to `none`. -/
def evalNumber (e : Expr) : Option ℚ :=
  match e with
  | .literalExpression (.Number n) => some n
  | .unaryExpression .Group e₁ => evalNumber e₁
  | .unaryExpression .Plus e₁ => evalNumber e₁
  | .unaryExpression .Minus e₁ =>
    match evalNumber e₁ with
    | some a => some (Rat.neg a)
    | none => none
  | .binaryExpression op l r =>
    match evalNumber l, evalNumber r with
    | some a, some b =>
      match op with
      | .Addition => some (Rat.add a b)
      | .Subtraction => some (Rat.sub a b)
      | .Multiplication => some (Rat.mul a b)
      | .Division => if b.num = 0 then none else some (Rat.div a b)
      | _ => none
    | _, _ => none
  | _ => none

/-! Helper lemmas shared by the claim theorems. -/

theorem peekToken_ok {s s' : TokState} {t : Token}
    (h : nextToken s = .ok (t, s')) : peekToken s = .ok t := by
  simp [peekToken, h]

theorem expect_mem (mask : List TokType) (t : Token) (h : t.type ∈ mask) :
    expect mask t = .ok t := by
  simp [expect, h]

theorem expect_not_mem (mask : List TokType) (t : Token) (h : t.type ∉ mask) :
    expect mask t = .error (.parseError t.line t.col t.type mask) := by
  simp [expect, h]

/-- C4: after one complete expression, non-empty trailing input (a
peekable non-`Eof` token) makes `parseStrict` fail with a `ParseError`
while `parseLenient` succeeds with the tree of the leading expression,
ignoring the trailing input. -/
theorem strict_rejects_lenient_ignores_trailing
    (input : String) (e : Expr) (s' : TokState) (t : Token)
    (hparse : parseExpression (parseFuel input) (initState input) = .ok (e, s'))
    (hpeek : peekToken s' = .ok t)
    (htype : t.type ≠ .Eof) :
    parseStrict input = .error (.parseError t.line t.col t.type [.Eof]) ∧
      parseLenient input = .ok e := by
  have hexp : expect [.Eof] t = .error (.parseError t.line t.col t.type [.Eof]) :=
    expect_not_mem [.Eof] t (by simp [htype])
  constructor
  · simp only [parseStrict, parse, hparse, hpeek, hexp]
  · simp only [parseLenient, parse, hparse]

/-- C4 witness: on `"1 + 2 garbage"` the hypotheses hold concretely —
`parseStrict` fails with the trailing-token `ParseError` and
`parseLenient` yields the tree of `1 + 2`. -/
theorem strict_rejects_lenient_ignores_trailing_witness :
    parseStrict "1 + 2 garbage" =
      .error (.parseError 1 7 .Name [.Eof]) ∧
    parseLenient "1 + 2 garbage" =
      .ok (.binaryExpression .Addition
        (.literalExpression (.Number 1)) (.literalExpression (.Number 2))) :=
  strict_rejects_lenient_ignores_trailing "1 + 2 garbage"
    (.binaryExpression .Addition
      (.literalExpression (.Number 1)) (.literalExpression (.Number 2)))
    ⟨[' ', 'g', 'a', 'r', 'b', 'a', 'g', 'e'], 1, 6⟩
    ⟨.Name, ['g', 'a', 'r', 'b', 'a', 'g', 'e'], 1, 7⟩
    (by rfl) (by rfl) (by decide)

theorem strLt_irrefl (a : List Char) : strLt a a = false := by
  induction a with
  | nil => rfl
  | cons x xs ih => simp [strLt, ih]

/-- C2 counterexample: in `{a:1, a:2}` the parsed `Map` node binds `a`
to the expression written first, `1`, which is not the expression
written last, `2` — the claim that the last write per key wins is false
on the code (`std::map::emplace` never overwrites). -/
theorem map_duplicate_key_counterexample :
    parseStrict "{a:1, a:2}" =
      .ok (.mapExpression [(['a'], .literalExpression (.Number 1))]) ∧
    mapLookup [(['a'], Expr.literalExpression (.Number 1))] ['a'] =
      some (.literalExpression (.Number 1)) ∧
    parseStrict "{a:1, a:2}" ≠
      .ok (.mapExpression [(['a'], .literalExpression (.Number 2))]) := by
  refine ⟨rfl, rfl, ?_⟩
  rw [show parseStrict "{a:1, a:2}" =
    .ok (.mapExpression [(['a'], .literalExpression (.Number 1))]) from rfl]
  simp

/-- C2 amended: for a map literal that repeats a key, the parsed `Map`
node binds that key to the expression written first — `emplace` with an
already-present key leaves the map unchanged (the duplicate value
expression is parsed and then discarded). -/
theorem map_duplicate_key_first_wins :
    (∀ (k : List Char) (v' v : Expr) (rest : List (List Char × Expr)),
        mapEmplace ((k, v') :: rest) k v = (k, v') :: rest) ∧
    parseStrict "{a:1, a:2}" =
      .ok (.mapExpression [(['a'], .literalExpression (.Number 1))]) ∧
    parseStrict "{a:1, a:2, a:3}" =
      .ok (.mapExpression [(['a'], .literalExpression (.Number 1))]) := by
  refine ⟨fun k v' v rest => ?_, rfl, rfl⟩
  simp [mapEmplace, strLt_irrefl]

/-- C3: the tokenizer does not reject a lone `=`. The source guards the
two-character `==` token with `curChar() == '='`, which inside the `=`
case is trivially true, so any `=` is tokenized as an `Equal` token that
swallows the next character, and `parseStrict "1 = 2"` parses
successfully as `Equal(1, 2)` instead of raising the lexical error the
spec describes. -/
theorem lone_equals_is_tokenized_as_equal :
    nextToken ⟨['=', 'x'], 1, 1⟩ =
      .ok (⟨.Equal, ['=', 'x'], 1, 1⟩, ⟨[], 1, 3⟩) ∧
    parseStrict "1 = 2" =
      .ok (.binaryExpression .Equal
        (.literalExpression (.Number 1)) (.literalExpression (.Number 2))) :=
  ⟨rfl, rfl⟩

/-- C7 counterexample: `(1)` is a well-formed expression, but
`parseStrict "(1)[]"` is a parse error (a grouped term at top level is
returned without the subscript loop), and `parseLenient "(1)[]"` yields
the bare `Group` node, not a `Subscript` node over the tree of `(1)` —
so the claim fails for the well-formed expression `(1)`. -/
theorem empty_subscript_after_group_counterexample :
    parseStrict "(1)" =
      .ok (.unaryExpression .Group (.literalExpression (.Number 1))) ∧
    (parseStrict "(1)[]").isOk = false ∧
    parseLenient "(1)[]" =
      .ok (.unaryExpression .Group (.literalExpression (.Number 1))) ∧
    Expr.unaryExpression .Group (.literalExpression (.Number 1)) ≠
      Expr.subscriptExpression
        (.unaryExpression .Group (.literalExpression (.Number 1)))
        (.arrayExpression []) :=
  ⟨rfl, rfl, rfl, fun h => Expr.noConfusion h⟩

/-- C7 amended: an empty subscript argument list is not a parse error —
whenever a simple term is parsed on the subscript-chaining path and the
input continues with `[` immediately closed by `]`, the result is a
`Subscript` node whose target is that simple term and whose index is an
empty `Array` node; in particular `x[]` parses this way in both modes. -/
theorem empty_subscript_empty_array_index :
    (∀ (f : Nat) (s s₁ s₂ s₃ : TokState) (t : Expr) (obr cbr t₃ : Token),
      parseSimpleTerm (f + 2) s = .ok (t, s₁) →
      nextToken s₁ = .ok (obr, s₂) → obr.type = .OBracket →
      nextToken s₂ = .ok (cbr, s₃) → cbr.type = .CBracket →
      peekToken s₃ = .ok t₃ → t₃.type ≠ .OBracket →
      parseSimpleTermOrSubscript (f + 3) s =
        .ok (.subscriptExpression t (.arrayExpression []), s₃)) ∧
    parseStrict "x[]" =
      .ok (.subscriptExpression (.variableExpression ['x']) (.arrayExpression [])) ∧
    parseLenient "x[]" =
      .ok (.subscriptExpression (.variableExpression ['x']) (.arrayExpression [])) := by
  refine ⟨?_, rfl, rfl⟩
  intro f s s₁ s₂ s₃ t obr cbr t₃ hterm hobr hobrty hcbr hcbrty hpeek hne
  have hpo : peekToken s₁ = .ok obr := peekToken_ok hobr
  have hpc : peekToken s₂ = .ok cbr := peekToken_ok hcbr
  simp only [parseSimpleTermOrSubscript, hterm]
  simp only [parseSubscriptLoop, hpo]
  rw [if_pos (by simp [hasType, hobrty])]
  simp only [parseSubscript, hobr, expect_mem [.OBracket] obr (by simp [hobrty]), hpc]
  rw [if_pos (by simp [hasType, hcbrty])]
  simp only [hcbr, parseSubscriptLoop, hpeek]
  rw [if_neg (by simp [hasType, hne])]

/-- C6: inside `parseSubscript`, a non-empty argument list of exactly
one expression becomes the index itself, and a longer list is wrapped in
an `Array` node; the argument loop preserves the written order (each
comma-continued element is consed in front of the later ones). The
concrete parses `x[7]` and `x[7,8]` show both shapes end to end. -/
theorem subscript_single_index_vs_array :
    (∀ (f : Nat) (lhs : Expr) (s s₁ s₂ : TokState) (obr t₁ : Token) (es : List Expr),
      nextToken s = .ok (obr, s₁) → obr.type = .OBracket →
      peekToken s₁ = .ok t₁ → t₁.type ≠ .CBracket →
      parseSubscriptArgs f s₁ = .ok (es, s₂) →
      parseSubscript (f + 1) lhs s =
        .ok (.subscriptExpression lhs
          (match es with | [e] => e | _ => .arrayExpression es), s₂)) ∧
    (∀ (f : Nat) (s s₁ s₂ s₃ : TokState) (e : Expr) (ct : Token) (es : List Expr),
      parseExpressionOrAnyRange f s = .ok (e, s₁) →
      nextToken s₁ = .ok (ct, s₂) → ct.type = .Comma →
      parseSubscriptArgs f s₂ = .ok (es, s₃) →
      parseSubscriptArgs (f + 1) s = .ok (e :: es, s₃)) ∧
    parseStrict "x[7]" =
      .ok (.subscriptExpression (.variableExpression ['x'])
        (.literalExpression (.Number 7))) ∧
    parseStrict "x[7,8]" =
      .ok (.subscriptExpression (.variableExpression ['x'])
        (.arrayExpression
          [.literalExpression (.Number 7), .literalExpression (.Number 8)])) := by
  refine ⟨?_, ?_, rfl, rfl⟩
  · intro f lhs s s₁ s₂ obr t₁ es hnext hty hpeek hne hargs
    simp only [parseSubscript, hnext, expect_mem [.OBracket] obr (by simp [hty]), hpeek]
    rw [if_neg (by simp [hasType, hne])]
    simp only [hargs]
  · intro f s s₁ s₂ s₃ e ct es harg hnext hty hrest
    simp only [parseSubscriptArgs, harg, hnext, expect_mem [.Comma, .CBracket] ct (by simp [hty])]
    rw [if_pos (by simp [hasType, hty])]
    simp only [hrest]

/-- C5: inside a subscript argument list, a leading range token yields
`RightBoundedRange` of the following expression; an expression followed
by a range token yields `BoundedRange` when a simple term follows the
range token, and `LeftBoundedRange` when one does not. -/
theorem subscript_range_forms :
    (∀ (f : Nat) (s s₁ s₂ : TokState) (rt : Token) (e : Expr),
      nextToken s = .ok (rt, s₁) → rt.type = .Range →
      parseExpression f s₁ = .ok (e, s₂) →
      parseExpressionOrAnyRange (f + 1) s =
        .ok (.unaryExpression .RightBoundedRange e, s₂)) ∧
    (∀ (f : Nat) (s s₁ s₂ s₃ : TokState) (t₀ rt t₂ : Token) (a b : Expr),
      peekToken s = .ok t₀ → t₀.type ≠ .Range →
      parseExpression f s = .ok (a, s₁) →
      nextToken s₁ = .ok (rt, s₂) → rt.type = .Range →
      peekToken s₂ = .ok t₂ → t₂.type ∈ simpleTermTokens →
      parseExpression f s₂ = .ok (b, s₃) →
      parseExpressionOrAnyRange (f + 1) s =
        .ok (.binaryExpression .BoundedRange a b, s₃)) ∧
    (∀ (f : Nat) (s s₁ s₂ : TokState) (t₀ rt t₂ : Token) (a : Expr),
      peekToken s = .ok t₀ → t₀.type ≠ .Range →
      parseExpression f s = .ok (a, s₁) →
      nextToken s₁ = .ok (rt, s₂) → rt.type = .Range →
      peekToken s₂ = .ok t₂ → t₂.type ∉ simpleTermTokens →
      parseExpressionOrAnyRange (f + 1) s =
        .ok (.unaryExpression .LeftBoundedRange a, s₂)) := by
  refine ⟨?_, ?_, ?_⟩
  · intro f s s₁ s₂ rt e hnext hty hexpr
    simp only [parseExpressionOrAnyRange, peekToken_ok hnext]
    rw [if_pos (by simp [hasType, hty])]
    simp only [hnext, hexpr]
  · intro f s s₁ s₂ s₃ t₀ rt t₂ a b hpeek hne hexpr hnext hty hpeek₂ hmem hexpr₂
    simp only [parseExpressionOrAnyRange, hpeek]
    rw [if_neg (by simp [hasType, hne])]
    simp only [hexpr, peekToken_ok hnext]
    rw [if_pos (by simp [hasType, hty])]
    simp only [hnext, hpeek₂]
    rw [if_pos hmem]
    simp only [hexpr₂]
  · intro f s s₁ s₂ t₀ rt t₂ a hpeek hne hexpr hnext hty hpeek₂ hmem
    simp only [parseExpressionOrAnyRange, hpeek]
    rw [if_neg (by simp [hasType, hne])]
    simp only [hexpr, peekToken_ok hnext]
    rw [if_pos (by simp [hasType, hty])]
    simp only [hnext, hpeek₂]
    rw [if_neg hmem]

/-- C5 witness: the three range forms at the concrete subscript
fragments of `x[..2]`, `x[1..2]` and `x[1..]`. -/
theorem subscript_range_forms_witness :
    parseExpressionOrAnyRange 51 ⟨['.', '.', '2', ']'], 1, 3⟩ =
      .ok (.unaryExpression .RightBoundedRange (.literalExpression (.Number 2)),
        ⟨[']'], 1, 6⟩) ∧
    parseExpressionOrAnyRange 51 ⟨['1', '.', '.', '2', ']'], 1, 3⟩ =
      .ok (.binaryExpression .BoundedRange
        (.literalExpression (.Number 1)) (.literalExpression (.Number 2)),
        ⟨[']'], 1, 7⟩) ∧
    parseExpressionOrAnyRange 51 ⟨['1', '.', '.', ']'], 1, 3⟩ =
      .ok (.unaryExpression .LeftBoundedRange (.literalExpression (.Number 1)),
        ⟨[']'], 1, 6⟩) :=
  ⟨subscript_range_forms.1 50 ⟨['.', '.', '2', ']'], 1, 3⟩
      ⟨['2', ']'], 1, 5⟩ ⟨[']'], 1, 6⟩ ⟨.Range, ['.', '.'], 1, 3⟩
      (.literalExpression (.Number 2)) rfl rfl rfl,
   subscript_range_forms.2.1 50 ⟨['1', '.', '.', '2', ']'], 1, 3⟩
      ⟨['.', '.', '2', ']'], 1, 4⟩ ⟨['2', ']'], 1, 6⟩ ⟨[']'], 1, 7⟩
      ⟨.Number, ['1'], 1, 3⟩ ⟨.Range, ['.', '.'], 1, 4⟩ ⟨.Number, ['2'], 1, 6⟩
      (.literalExpression (.Number 1)) (.literalExpression (.Number 2))
      rfl (by decide) rfl rfl rfl rfl (by decide) rfl,
   subscript_range_forms.2.2 50 ⟨['1', '.', '.', ']'], 1, 3⟩
      ⟨['.', '.', ']'], 1, 4⟩ ⟨[']'], 1, 6⟩
      ⟨.Number, ['1'], 1, 3⟩ ⟨.Range, ['.', '.'], 1, 4⟩ ⟨.CBracket, [']'], 1, 6⟩
      (.literalExpression (.Number 1))
      rfl (by decide) rfl rfl rfl rfl (by decide)⟩

/-- C6 witness: the subscript argument machinery at the concrete
fragments of `x[7]` and `x[7,8]`. -/
theorem subscript_single_index_vs_array_witness :
    parseSubscript 51 (.variableExpression ['x']) ⟨['[', '7', ']'], 1, 2⟩ =
      .ok (.subscriptExpression (.variableExpression ['x'])
        (.literalExpression (.Number 7)), ⟨[], 1, 5⟩) ∧
    parseSubscriptArgs 51 ⟨['7', ',', '8', ']'], 1, 3⟩ =
      .ok ([Expr.literalExpression (.Number 7), Expr.literalExpression (.Number 8)],
        ⟨[], 1, 7⟩) :=
  ⟨subscript_single_index_vs_array.1 50 (.variableExpression ['x'])
      ⟨['[', '7', ']'], 1, 2⟩ ⟨['7', ']'], 1, 3⟩ ⟨[], 1, 5⟩
      ⟨.OBracket, ['['], 1, 2⟩ ⟨.Number, ['7'], 1, 3⟩
      [Expr.literalExpression (.Number 7)]
      rfl rfl rfl (by decide) rfl,
   subscript_single_index_vs_array.2.1 50
      ⟨['7', ',', '8', ']'], 1, 3⟩ ⟨[',', '8', ']'], 1, 4⟩ ⟨['8', ']'], 1, 5⟩ ⟨[], 1, 7⟩
      (.literalExpression (.Number 7)) ⟨.Comma, [','], 1, 4⟩
      [Expr.literalExpression (.Number 8)]
      rfl rfl rfl rfl⟩

/-- C7 witness: the amended statement at the concrete input `x[]`. -/
theorem empty_subscript_empty_array_index_witness :
    parseSimpleTermOrSubscript 13 ⟨['x', '[', ']'], 1, 1⟩ =
      .ok (.subscriptExpression (.variableExpression ['x']) (.arrayExpression []),
        ⟨[], 1, 4⟩) :=
  empty_subscript_empty_array_index.1 10 ⟨['x', '[', ']'], 1, 1⟩
    ⟨['[', ']'], 1, 2⟩ ⟨[']'], 1, 3⟩ ⟨[], 1, 4⟩
    (.variableExpression ['x'])
    ⟨.OBracket, ['['], 1, 2⟩ ⟨.CBracket, [']'], 1, 3⟩ ⟨.Eof, [], 1, 4⟩
    rfl rfl rfl rfl rfl rfl (by decide)

/-- C9: whatever follows them, input beginning with the exact characters
of `true`, `false` or `null` (on which no numeric scan can succeed, as
they start with a letter) is tokenized as a `Boolean` or `Null` token
spanning exactly those characters — ahead of identifier scanning and
with no longest-identifier disambiguation, so `truex` lexes as the
keyword `true` followed by the separate identifier `x`. -/
theorem keyword_exact_match_priority :
    (∀ (rest : List Char) (l c : Nat),
      nextToken ⟨'t' :: 'r' :: 'u' :: 'e' :: rest, l, c⟩ =
        .ok (⟨.Boolean, ['t', 'r', 'u', 'e'], l, c⟩, ⟨rest, l, c + 4⟩)) ∧
    (∀ (rest : List Char) (l c : Nat),
      nextToken ⟨'f' :: 'a' :: 'l' :: 's' :: 'e' :: rest, l, c⟩ =
        .ok (⟨.Boolean, ['f', 'a', 'l', 's', 'e'], l, c⟩, ⟨rest, l, c + 5⟩)) ∧
    (∀ (rest : List Char) (l c : Nat),
      nextToken ⟨'n' :: 'u' :: 'l' :: 'l' :: rest, l, c⟩ =
        .ok (⟨.Null, ['n', 'u', 'l', 'l'], l, c⟩, ⟨rest, l, c + 4⟩)) ∧
    nextToken ⟨['t', 'r', 'u', 'e', 'x'], 1, 1⟩ =
      .ok (⟨.Boolean, ['t', 'r', 'u', 'e'], 1, 1⟩, ⟨['x'], 1, 5⟩) ∧
    nextToken ⟨['x'], 1, 5⟩ = .ok (⟨.Name, ['x'], 1, 5⟩, ⟨[], 1, 6⟩) :=
  ⟨fun _ _ _ => rfl, fun _ _ _ => rfl, fun _ _ _ => rfl, rfl, rfl⟩

/-- Raw string-literal bodies for a double-quoted literal: sequences in
which every `\` introduces an escape pair and every other character is
neither the closing delimiter nor a stray backslash. -/
inductive ValidRaw : List Char → Prop where
  | nil : ValidRaw []
  | escape (c : Char) (rest : List Char) : ValidRaw rest →
      ValidRaw ('\\' :: c :: rest)
  | plain (c : Char) (rest : List Char) : c ≠ '"' → c ≠ '\\' → ValidRaw rest →
      ValidRaw (c :: rest)

theorem readQuotedString_valid {raw : List Char} (h : ValidRaw raw) :
    ∀ (rest : List Char) (l c : Nat), ∃ l' c',
      readQuotedString '"' (raw ++ '"' :: rest) l c = some (raw, rest, l', c') := by
  induction h with
  | nil =>
    refine fun rest l c => ⟨l, c + 1, ?_⟩
    rw [readQuotedString.eq_def]
    simp
  | escape c₀ rest₀ _ ih =>
    intro rest l c
    rcases hadv : advanceLoc c₀ l (c + 1) with ⟨l₁, k₁⟩
    obtain ⟨l', c', hih⟩ := ih rest l₁ k₁
    refine ⟨l', c', ?_⟩
    simp only [List.cons_append]
    rw [readQuotedString.eq_def]
    simp [hadv, hih]
  | plain c₀ rest₀ hq hb _ ih =>
    intro rest l c
    rcases hadv : advanceLoc c₀ l c with ⟨l₁, k₁⟩
    obtain ⟨l', c', hih⟩ := ih rest l₁ k₁
    refine ⟨l', c', ?_⟩
    simp only [List.cons_append]
    rw [readQuotedString.eq_def]
    simp [hadv, hih, hq, hb]

/-- C10: a string literal's token carries the raw text between the
delimiters with escape pairs unprocessed, and it is `parseLiteral` that
unescapes (`kdl::str_unescape`) when building the literal `String`
value; concretely, tokenizing `"a\"b"` yields raw data `a\"b` while
parsing it yields the value `a"b`. -/
theorem string_token_raw_and_parser_unescapes :
    (∀ (raw rest : List Char) (l c : Nat), ValidRaw raw →
      ∃ l' c', nextToken ⟨'"' :: (raw ++ '"' :: rest), l, c⟩ =
        .ok (⟨.String, raw, l, c⟩, ⟨rest, l', c'⟩)) ∧
    (∀ (f : Nat) (s s' : TokState) (t : Token),
      nextToken s = .ok (t, s') → t.type = .String →
      parseLiteral (f + 1) s =
        .ok (.literalExpression (.String (strUnescape t.data)), s')) ∧
    nextToken ⟨['"', 'a', '\\', '"', 'b', '"'], 1, 1⟩ =
      .ok (⟨.String, ['a', '\\', '"', 'b'], 1, 1⟩, ⟨[], 1, 7⟩) ∧
    strUnescape ['a', '\\', '"', 'b'] = ['a', '"', 'b'] ∧
    parseStrict "\"a\\\"b\"" = .ok (.literalExpression (.String ['a', '"', 'b'])) := by
  refine ⟨?_, ?_, rfl, rfl, rfl⟩
  · intro raw rest l c h
    obtain ⟨l', c', hq⟩ := readQuotedString_valid h rest l (c + 1)
    refine ⟨l', c', ?_⟩
    simp [nextToken, skipWs, hq]
  · intro f s s' t hnext hty
    simp only [parseLiteral, peekToken_ok hnext,
      expect_mem (literalTokens ++ [.OBracket, .OBrace]) t (by simp [hty, literalTokens])]
    rw [if_pos (show hasType t [.String] by simp [hasType, hty])]
    simp only [hnext]

/-- C10 witness: the literal `"a\"b"` — valid raw body `a\"b`, token
carrying it verbatim, and the parser unescaping it to `a"b`. -/
theorem string_token_raw_and_parser_unescapes_witness :
    (∃ l' c', nextToken ⟨'"' :: (['a', '\\', '"', 'b'] ++ '"' :: []), 1, 1⟩ =
      .ok (⟨.String, ['a', '\\', '"', 'b'], 1, 1⟩, ⟨[], l', c'⟩)) ∧
    parseLiteral 6 ⟨['"', 'a', '\\', '"', 'b', '"'], 1, 1⟩ =
      .ok (.literalExpression (.String ['a', '"', 'b']), ⟨[], 1, 7⟩) :=
  ⟨string_token_raw_and_parser_unescapes.1 ['a', '\\', '"', 'b'] [] 1 1
      (ValidRaw.plain 'a' _ (by decide) (by decide)
        (ValidRaw.escape '"' _
          (ValidRaw.plain 'b' [] (by decide) (by decide) ValidRaw.nil))),
   string_token_raw_and_parser_unescapes.2.1 5
      ⟨['"', 'a', '\\', '"', 'b', '"'], 1, 1⟩ ⟨[], 1, 7⟩
      ⟨.String, ['a', '\\', '"', 'b'], 1, 1⟩ rfl rfl⟩

theorem digit_ne {d : Char} (hd : d.isDigit = true) (x : Char)
    (hx : x.isDigit = false) : d ≠ x := by
  intro h
  subst h
  rw [hd] at hx
  exact Bool.noConfusion hx

/-- Dispatch lemma: a digit never matches any operator, whitespace,
comment, string, range or equality case of `emitToken`, so tokenizing
input that starts with a digit always lands in the numeric scan. -/
theorem nextToken_digit (d : Char) (cs : List Char) (l c : Nat)
    (hd : d.isDigit = true) :
    nextToken ⟨d :: cs, l, c⟩ = numericScan d cs l c := by
  have h₁ := digit_ne hd ' ' (by decide)
  have h₂ := digit_ne hd '\t' (by decide)
  have h₃ := digit_ne hd '\r' (by decide)
  have h₄ := digit_ne hd '\n' (by decide)
  have h₅ := digit_ne hd '/' (by decide)
  have h₆ := digit_ne hd '[' (by decide)
  have h₇ := digit_ne hd ']' (by decide)
  have h₈ := digit_ne hd '{' (by decide)
  have h₉ := digit_ne hd '}' (by decide)
  have h₁₀ := digit_ne hd '(' (by decide)
  have h₁₁ := digit_ne hd ')' (by decide)
  have h₁₂ := digit_ne hd '+' (by decide)
  have h₁₃ := digit_ne hd '-' (by decide)
  have h₁₄ := digit_ne hd '*' (by decide)
  have h₁₅ := digit_ne hd '%' (by decide)
  have h₁₆ := digit_ne hd '~' (by decide)
  have h₁₇ := digit_ne hd '&' (by decide)
  have h₁₈ := digit_ne hd '|' (by decide)
  have h₁₉ := digit_ne hd '^' (by decide)
  have h₂₀ := digit_ne hd '!' (by decide)
  have h₂₁ := digit_ne hd '<' (by decide)
  have h₂₂ := digit_ne hd '>' (by decide)
  have h₂₃ := digit_ne hd ':' (by decide)
  have h₂₄ := digit_ne hd ',' (by decide)
  have h₂₅ := digit_ne hd '\'' (by decide)
  have h₂₆ := digit_ne hd '"' (by decide)
  have h₂₇ := digit_ne hd '.' (by decide)
  have h₂₈ := digit_ne hd '=' (by decide)
  simp [nextToken, skipWs, h₁, h₂, h₃, h₄, h₅, h₆, h₇, h₈, h₉, h₁₀, h₁₁,
    h₁₂, h₁₃, h₁₄, h₁₅, h₁₆, h₁₇, h₁₈, h₁₉, h₂₀, h₂₁, h₂₂, h₂₃, h₂₄,
    h₂₅, h₂₆, h₂₇, h₂₈]

theorem spanDigits_append (ds r : List Char)
    (hds : ∀ x ∈ ds, x.isDigit = true)
    (hr : ∀ x, r.head? = some x → x.isDigit = false) :
    spanDigits (ds ++ r) = (ds, r) := by
  induction ds with
  | nil =>
    cases r with
    | nil => rfl
    | cons x xs => simp [spanDigits, hr x rfl]
  | cons d ds ih =>
    have hd : d.isDigit = true := hds d (List.mem_cons_self d ds)
    have ih' := ih fun x hx => hds x (List.mem_cons_of_mem d hx)
    simp [spanDigits, hd, ih']

/-- C8: a decimal number token (digits, dot, digits) immediately
followed by a `.` that does not begin a `..` range token makes the
tokenizer raise the unexpected-character lexical error of `emitToken`,
which carries the (line, column) location of the offending number; a
`..` after the integer digits is instead left for a `Range` token. -/
theorem decimal_then_dot_is_lexical_error :
    (∀ (d fh : Char) (ds fs rest : List Char) (l c : Nat),
      d.isDigit = true → (∀ x ∈ ds, x.isDigit = true) →
      fh.isDigit = true → (∀ x ∈ fs, x.isDigit = true) →
      rest.head? ≠ some '.' →
      nextToken ⟨d :: (ds ++ '.' :: fh :: (fs ++ '.' :: rest)), l, c⟩ =
        .error (.unexpectedChar l c d)) ∧
    parseStrict "1.2.3" = .error (.unexpectedChar 1 1 '1') ∧
    parseStrict "1.5" = .ok (.literalExpression (.Number (mkRat 15 10))) ∧
    nextToken ⟨['1', '.', '.', '3'], 1, 1⟩ =
      .ok (⟨.Number, ['1'], 1, 1⟩, ⟨['.', '.', '3'], 1, 2⟩) := by
  refine ⟨?_, rfl, rfl, rfl⟩
  intro d fh ds fs rest l c hd hds hfh hfs hrest
  rw [nextToken_digit d (ds ++ '.' :: fh :: (fs ++ '.' :: rest)) l c hd]
  have hfd : fh ≠ '.' := digit_ne hfh '.' (by decide)
  have h1 : spanDigits (d :: (ds ++ '.' :: fh :: (fs ++ '.' :: rest))) =
      (d :: ds, '.' :: fh :: (fs ++ '.' :: rest)) := by
    have h := spanDigits_append (d :: ds) ('.' :: fh :: (fs ++ '.' :: rest))
      (by
        intro x hx
        rcases List.mem_cons.mp hx with h | h
        · exact h ▸ hd
        · exact hds x h)
      (by intro x hx; simp at hx; subst hx; decide)
    simpa using h
  have h2 : spanDigits (fh :: (fs ++ '.' :: rest)) = (fh :: fs, '.' :: rest) := by
    have h := spanDigits_append (fh :: fs) ('.' :: rest)
      (by
        intro x hx
        rcases List.mem_cons.mp hx with h | h
        · exact h ▸ hfh
        · exact hfs x h)
      (by intro x hx; simp at hx; subst hx; decide)
    simpa using h
  simp [numericScan, readDecimal, h1, h2, hd, hfd, hrest]

/-- C8 witness: the general statement at `1.2.3` starting at (1, 1). -/
theorem decimal_then_dot_is_lexical_error_witness :
    nextToken ⟨'1' :: ([] ++ '.' :: '2' :: ([] ++ '.' :: ['3'])), 1, 1⟩ =
      .error (.unexpectedChar 1 1 '1') :=
  decimal_then_dot_is_lexical_error.1 '1' '2' [] [] ['3'] 1 1
    (by decide) (by simp) (by decide) (by simp) (by decide)

/-- Token streams that spell a flat binary-operator chain continuation:
each step is one compound-term operator token (with its mapped binary
operation) followed by a right operand that `parseSimpleTermOrSwitch`
parses (with any sufficient fuel) to a fixed expression. -/
inductive ChainYields : TokState → List (BinaryOperation × Expr) → TokState → Prop where
  | nil (s : TokState) : ChainYields s [] s
  | cons (s s₁ s₂ s₃ : TokState) (op : Token) (bop : BinaryOperation) (rhs : Expr)
      (rest : List (BinaryOperation × Expr))
      (hop : nextToken s = .ok (op, s₁))
      (hmem : op.type ∈ compoundTermTokens)
      (hbop : tokenToBinaryOp op.type = some bop)
      (hrhs : ∀ g, 4 ≤ g → parseSimpleTermOrSwitch g s₁ = .ok (rhs, s₂))
      (hrest : ChainYields s₂ rest s₃) :
      ChainYields s ((bop, rhs) :: rest) s₃

/-- Left fold of a chain continuation onto an accumulated left-hand
side: every step nests the previous tree as the left child, whatever
the operator is. -/
def chainFold (lhs : Expr) (pairs : List (BinaryOperation × Expr)) : Expr :=
  pairs.foldl (fun acc p => .binaryExpression p.1 acc p.2) lhs

/-- A `Number` token parses as a numeric literal through
`parseSimpleTermOrSwitch` whenever the following token is not `[`. -/
theorem parseSimpleTermOrSwitch_number (F : Nat) (s s' : TokState)
    (num t' : Token) (hF : 4 ≤ F)
    (h₁ : nextToken s = .ok (num, s')) (h₂ : num.type = .Number)
    (h₃ : peekToken s' = .ok t') (h₄ : t'.type ≠ .OBracket) :
    parseSimpleTermOrSwitch F s =
      .ok (.literalExpression (.Number (toNumber num.data)), s') := by
  obtain ⟨g, rfl⟩ : ∃ g, F = g + 4 := ⟨F - 4, by omega⟩
  simp only [parseSimpleTermOrSwitch, peekToken_ok h₁,
    expect_mem (simpleTermTokens ++ [.DoubleOBrace]) num
      (by rw [List.mem_append]; left; rw [h₂]; decide)]
  rw [if_pos (show hasType num simpleTermTokens by rw [hasType, h₂]; decide)]
  simp only [parseSimpleTermOrSubscript, parseSimpleTerm, peekToken_ok h₁,
    expect_mem simpleTermTokens num (by rw [h₂]; decide)]
  rw [if_neg (show ¬hasType num unaryOperatorTokens by rw [hasType, h₂]; decide),
    if_neg (show ¬hasType num [.OParen] by rw [hasType, h₂]; decide),
    if_neg (show ¬hasType num [.Name] by rw [hasType, h₂]; decide)]
  simp only [parseLiteral, peekToken_ok h₁,
    expect_mem (literalTokens ++ [.OBracket, .OBrace]) num
      (by rw [List.mem_append]; left; rw [h₂]; decide)]
  rw [if_neg (show ¬hasType num [.String] by rw [hasType, h₂]; decide),
    if_pos (show hasType num [.Number] by rw [hasType, h₂]; decide)]
  simp only [h₁, parseSubscriptLoop, h₃]
  rw [if_neg (show ¬hasType t' [.OBracket] by rw [hasType]; simp [h₄])]

/-- The one-level left-to-right loop of `parseCompoundTerm`: a chain
continuation folds left onto the accumulated tree, one `Binary` node per
operator in stream order, stopping at the first non-compound token. -/
theorem parseCompoundTerm_chain (pairs : List (BinaryOperation × Expr))
    (s s_end : TokState) (t_end : Token) (lhs : Expr) (F : Nat)
    (hchain : ChainYields s pairs s_end)
    (hpeek : peekToken s_end = .ok t_end)
    (hnc : t_end.type ∉ compoundTermTokens)
    (hF : pairs.length + 5 ≤ F) :
    parseCompoundTerm F lhs s = .ok (chainFold lhs pairs, s_end) := by
  induction hchain generalizing lhs F with
  | nil s =>
    obtain ⟨g, rfl⟩ : ∃ g, F = g + 1 := ⟨F - 1, by omega⟩
    simp only [parseCompoundTerm, hpeek]
    rw [if_neg (show ¬hasType t_end compoundTermTokens from hnc)]
    rfl
  | cons s s₁ s₂ s₃ op bop rhs rest hop hmem hbop hrhs hrest ih =>
    obtain ⟨g, rfl⟩ : ∃ g, F = g + 1 := ⟨F - 1, by omega⟩
    have hg : rest.length + 5 ≤ g := by
      simp only [List.length_cons] at hF
      omega
    simp only [parseCompoundTerm, peekToken_ok hop]
    rw [if_pos (show hasType op compoundTermTokens from hmem)]
    simp only [hop, expect_mem compoundTermTokens op hmem, hbop, hrhs g (by omega)]
    rw [ih (.binaryExpression bop lhs rhs) g hpeek (by omega)]
    rfl

theorem rat_add_eq (a b : ℚ) : Rat.add a b = a + b := rfl

theorem rat_mul_eq (a b : ℚ) : Rat.mul a b = a * b := rfl

/-- C1: the compound-term loop builds a left-nested chain with every
binary operator, whatever its kind, at the same single precedence level
(each step wraps the accumulated tree as the left child); in particular
`1 + 2 * 3` parses in both modes as
`Multiplication(Addition(1, 2), 3)`, which denotes `9`, not `7`. -/
theorem flat_precedence_left_nested :
    (∀ (pairs : List (BinaryOperation × Expr)) (s s_end : TokState)
        (t_end : Token) (lhs : Expr) (F : Nat),
      ChainYields s pairs s_end →
      peekToken s_end = .ok t_end →
      t_end.type ∉ compoundTermTokens →
      pairs.length + 5 ≤ F →
      parseCompoundTerm F lhs s = .ok (chainFold lhs pairs, s_end)) ∧
    parseStrict "1 + 2 * 3" =
      .ok (.binaryExpression .Multiplication
        (.binaryExpression .Addition
          (.literalExpression (.Number 1)) (.literalExpression (.Number 2)))
        (.literalExpression (.Number 3))) ∧
    parseLenient "1 + 2 * 3" =
      .ok (.binaryExpression .Multiplication
        (.binaryExpression .Addition
          (.literalExpression (.Number 1)) (.literalExpression (.Number 2)))
        (.literalExpression (.Number 3))) ∧
    evalNumber (.binaryExpression .Multiplication
      (.binaryExpression .Addition
        (.literalExpression (.Number 1)) (.literalExpression (.Number 2)))
      (.literalExpression (.Number 3))) = some 9 ∧
    (9 : ℚ) ≠ 7 := by
  refine ⟨parseCompoundTerm_chain, rfl, rfl, ?_, by norm_num⟩
  simp only [evalNumber, rat_add_eq, rat_mul_eq]
  norm_num

/-- C1 witness: the chain statement at the continuation `+ 2 * 3` of
`1 + 2 * 3`, with the literal `1` as the accumulated left-hand side. -/
theorem flat_precedence_left_nested_witness :
    parseCompoundTerm 7 (.literalExpression (.Number 1))
      ⟨[' ', '+', ' ', '2', ' ', '*', ' ', '3'], 1, 2⟩ =
      .ok (.binaryExpression .Multiplication
        (.binaryExpression .Addition
          (.literalExpression (.Number 1)) (.literalExpression (.Number 2)))
        (.literalExpression (.Number 3)), ⟨[], 1, 10⟩) :=
  flat_precedence_left_nested.1
    [(.Addition, .literalExpression (.Number 2)),
     (.Multiplication, .literalExpression (.Number 3))]
    ⟨[' ', '+', ' ', '2', ' ', '*', ' ', '3'], 1, 2⟩ ⟨[], 1, 10⟩
    ⟨.Eof, [], 1, 10⟩ (.literalExpression (.Number 1)) 7
    (ChainYields.cons _ ⟨[' ', '2', ' ', '*', ' ', '3'], 1, 4⟩
        ⟨[' ', '*', ' ', '3'], 1, 6⟩ _
        ⟨.Addition, ['+'], 1, 3⟩ .Addition (.literalExpression (.Number 2)) _
        rfl (by decide) rfl
        (fun g hg => parseSimpleTermOrSwitch_number g
          ⟨[' ', '2', ' ', '*', ' ', '3'], 1, 4⟩ ⟨[' ', '*', ' ', '3'], 1, 6⟩
          ⟨.Number, ['2'], 1, 5⟩ ⟨.Multiplication, ['*'], 1, 7⟩
          hg rfl rfl rfl (by decide))
      (ChainYields.cons _ ⟨[' ', '3'], 1, 8⟩ ⟨[], 1, 10⟩ _
          ⟨.Multiplication, ['*'], 1, 7⟩ .Multiplication
          (.literalExpression (.Number 3)) _
          rfl (by decide) rfl
          (fun g hg => parseSimpleTermOrSwitch_number g
            ⟨[' ', '3'], 1, 8⟩ ⟨[], 1, 10⟩
            ⟨.Number, ['3'], 1, 9⟩ ⟨.Eof, [], 1, 10⟩
            hg rfl rfl rfl (by decide))
        (ChainYields.nil ⟨[], 1, 10⟩)))
    rfl (by decide) (by simp)

end EL
